import Mathlib

/-!
Shallow embedding of `src/args.rs` (the command-line argument parser of the
`shard` compiler front-end) and proofs of its specified properties.

The Rust code terminates the process from deep inside dispatch (help, version,
the shark banner, and every `error!` site call `exit`).  Following the design
note of the spec, those non-returning branches are modelled as an `Except`
error channel carrying a terminal-action variant `Halt`; the shared
`std::vec::IntoIter<String>` cursor is modelled as an explicit `List String`
threaded through the calls, functions that advance it returning the remaining
suffix.
-/

deriving instance DecidableEq for Except

namespace Shard

/-- Diagnostic severity, mirroring the `Level` enumeration of the report module
as consumed by `src/args.rs` (the five match arms of the `-l`/`--error-level`
handler). -/
inductive Level where
  | Fatal
  | Error
  | Warn
  | Note
  | Silent
deriving DecidableEq, Repr

/-- Error taxonomy of the parser: one constructor per `error!` call site in
`src/args.rs`, carrying the datum interpolated into that site's message.
`DuplicateFlag name` is the guard in `Arg::try_mut`; `GroupPositionError arg`
is the `is_end!` macro; `MissingValue arg` covers the three
`arguments.next().unwrap_or_else` sites; `InvalidValue level` is the wildcard
arm of the severity match; `UnrecognizedArgument arg` is the wildcard arm of
the dispatch match. -/
inductive ArgError where
  | DuplicateFlag (name : String)
  | GroupPositionError (arg : String)
  | MissingValue (arg : String)
  | InvalidValue (level : String)
  | UnrecognizedArgument (arg : String)
deriving DecidableEq, Repr

/-- The ways the parser terminates the process instead of returning a
configuration: `Usage` is `-h`, `HelpMsg` is `--help`, `Version` is
`-V`/`--version`, `SharkBanner` is the reserved literal branch, and `Err e`
is any `error!` site. -/
inductive Halt where
  | Usage
  | HelpMsg
  | Version
  | SharkBanner
  | Err (e : ArgError)
deriving DecidableEq, Repr

/-- The process exit code of each terminating branch: `exit(0)` for the
informational actions, `exit(1)` for the banner and for every `error!`. -/
def Halt.exitCode : Halt → Nat
  | .Usage => 0
  | .HelpMsg => 0
  | .Version => 0
  | .SharkBanner => 1
  | .Err _ => 1

/-- `Arg<T>` from `src/args.rs`: a current value plus a `set` flag. -/
structure Arg (T : Type) where
  value : T
  set : Bool
deriving DecidableEq, Repr

/-- `Arg::new`: constructs with the caller-supplied default and `set = false`. -/
def Arg.new {T : Type} (default : T) : Arg T :=
  { value := default, set := false }

/-- `Arg::try_mut`: if `set` is already true this fails with `DuplicateFlag`
(the `error!` exits the process); otherwise it stores `value`.  Faithful to
the source, the `set` flag itself is NOT updated by the assignment — the Rust
body is `if self.set { error!(...) } self.value = value;` with no
`self.set = true`. -/
def Arg.try_mut {T : Type} (a : Arg T) (name : String) (value : T) :
    Except ArgError (Arg T) :=
  if a.set then .error (.DuplicateFlag name)
  else .ok { a with value := value }

/-- The `Args` configuration struct with its field defaults
(`Args::default`). -/
structure Args where
  file : Arg String
  output : Arg String
  debug : Arg Bool
  code_context : Arg Bool
  level : Arg Level
  verbs : List String
deriving DecidableEq, Repr

/-- `Args::default`. -/
def Args.default : Args :=
  { file := Arg.new "main.shd"
    output := Arg.new "main.asm"
    debug := Arg.new false
    code_context := Arg.new true
    level := Arg.new Level.Warn
    verbs := [] }

/-- The severity-literal match in the `-l`/`--error-level` arm of
`Args::handle_arg`; `none` stands for the wildcard arm (an
`InvalidValue` error). -/
def parseLevel (level : String) : Option Level :=
  match level with
  | "f" | "fatal" => some .Fatal
  | "e" | "error" => some .Error
  | "w" | "warn" => some .Warn
  | "n" | "note" => some .Note
  | "s" | "silent" => some .Silent
  | _ => none

/-- Rust `str::starts_with`, evaluated on the character list of the string
(kernel-computable, unlike `String.startsWith`). -/
def strStartsWith (s p : String) : Bool := p.toList.isPrefixOf s.toList

/-- Group expansion at the top of `Args::handle_arg`: a token starting with
two dashes is kept as a single unit; otherwise each character after the first
(`chars().skip(1)`) becomes its own synthetic token `-<char>`. -/
def expand_group (argument : String) : List String :=
  if strStartsWith argument "--" then [argument]
  else (argument.toList.drop 1).map (fun c => "-" ++ String.singleton c)

/-- One iteration of the dispatch loop in `Args::handle_arg`: the big `match`
on a single expanded token.  `arguments` is the remaining raw-token stream
(the shared iterator); `is_end` is `i == args_len - 1`.  Returns the updated
configuration and remaining stream, or the terminal action taken. -/
def Args.handle_one (cfg : Args) (arguments : List String) (arg : String)
    (is_end : Bool) : Except Halt (Args × List String) :=
  match arg with
  | "-h" => .error .Usage
  | "--help" => .error .HelpMsg
  | "-V" | "--version" => .error .Version
  | "-d" | "--debug" =>
    match cfg.debug.try_mut arg true with
    | .error e => .error (.Err e)
    | .ok d => .ok ({ cfg with debug := d }, arguments)
  | "-f" | "--file" =>
    if !is_end then .error (.Err (.GroupPositionError arg)) else
    match arguments with
    | [] => .error (.Err (.MissingValue arg))
    | file :: rest =>
      match cfg.file.try_mut arg file with
      | .error e => .error (.Err e)
      | .ok f => .ok ({ cfg with file := f }, rest)
  | "-o" | "--output" =>
    if !is_end then .error (.Err (.GroupPositionError arg)) else
    match arguments with
    | [] => .error (.Err (.MissingValue arg))
    | output :: rest =>
      match cfg.output.try_mut arg output with
      | .error e => .error (.Err e)
      | .ok o => .ok ({ cfg with output := o }, rest)
  | "-l" | "--error-level" =>
    if !is_end then .error (.Err (.GroupPositionError arg)) else
    match arguments with
    | [] => .error (.Err (.MissingValue arg))
    | level :: rest =>
      match parseLevel level with
      | none => .error (.Err (.InvalidValue level))
      | some lv =>
        match cfg.level.try_mut arg lv with
        | .error e => .error (.Err e)
        | .ok l => .ok ({ cfg with level := l }, rest)
  | "--no-context" =>
    match cfg.code_context.try_mut arg false with
    | .error e => .error (.Err e)
    | .ok c => .ok ({ cfg with code_context := c }, arguments)
  | _ => .error (.Err (.UnrecognizedArgument arg))

/-- The indexed `for (i, arg)` loop of `Args::handle_arg` over the expanded
group: `is_end` holds exactly at the last element of the group. -/
def Args.handle_list : Args → List String → List String →
    Except Halt (Args × List String)
  | cfg, arguments, [] => .ok (cfg, arguments)
  | cfg, arguments, a :: as =>
    match Args.handle_one cfg arguments a as.isEmpty with
    | .error h => .error h
    | .ok (cfg2, rest2) => Args.handle_list cfg2 rest2 as

/-- `Args::handle_arg`: expand the group, then run the dispatch loop. -/
def Args.handle_arg (cfg : Args) (argument : String)
    (arguments : List String) : Except Halt (Args × List String) :=
  Args.handle_list cfg arguments (expand_group argument)

theorem Args.handle_one_length {cfg : Args} {arguments : List String}
    {arg : String} {is_end : Bool} {cfg2 : Args} {rest2 : List String}
    (h : Args.handle_one cfg arguments arg is_end = .ok (cfg2, rest2)) :
    rest2.length ≤ arguments.length := by
  unfold Args.handle_one Arg.try_mut at h
  repeat' split at h
  all_goals cases h
  all_goals try simp only [List.length_cons]
  all_goals omega

theorem Args.handle_list_length : ∀ (l : List String) (cfg : Args)
    (arguments : List String) (cfg2 : Args) (rest2 : List String),
    Args.handle_list cfg arguments l = .ok (cfg2, rest2) →
    rest2.length ≤ arguments.length := by
  intro l
  induction l with
  | nil =>
    intro cfg arguments cfg2 rest2 h
    unfold Args.handle_list at h
    simp_all
  | cons a as ih =>
    intro cfg arguments cfg2 rest2 h
    unfold Args.handle_list at h
    split at h
    · exact absurd h (by simp)
    · rename_i cfgm restm heq
      exact le_trans (ih _ _ _ _ h) (Args.handle_one_length heq)

theorem Args.handle_arg_length {cfg : Args} {argument : String}
    {arguments : List String} {cfg2 : Args} {rest2 : List String}
    (h : Args.handle_arg cfg argument arguments = .ok (cfg2, rest2)) :
    rest2.length ≤ arguments.length :=
  Args.handle_list_length _ _ _ _ _ h

/-- The `while let Some(arg) = args.next()` loop of `Args::parse`: dash
tokens go through `handle_arg` (which may consume further tokens), the
reserved literal `shark` prints the banner and exits 1, everything else is
appended to `verbs`.  Returns the configuration and the remaining stream at
loop exit. -/
def Args.scan (cfg : Args) (toks : List String) :
    Except Halt (Args × List String) :=
  match toks with
  | [] => .ok (cfg, [])
  | arg :: rest =>
    if strStartsWith arg "-" then
      match h : Args.handle_arg cfg arg rest with
      | .error ha => .error ha
      | .ok (cfg2, rest2) => Args.scan cfg2 rest2
    else if arg = "shark" then .error .SharkBanner
    else Args.scan { cfg with verbs := cfg.verbs ++ [arg] } rest
termination_by toks.length
decreasing_by
  · exact Nat.lt_succ_of_le (Args.handle_arg_length h)
  · simp

/-- Unfolding equation for `Args.scan` with a plain (non-dependent) match on
the result of `handle_arg`. -/
theorem Args.scan_eq (cfg : Args) (toks : List String) :
    Args.scan cfg toks =
      match toks with
      | [] => .ok (cfg, [])
      | arg :: rest =>
        if strStartsWith arg "-" then
          match Args.handle_arg cfg arg rest with
          | .error ha => .error ha
          | .ok (cfg2, rest2) => Args.scan cfg2 rest2
        else if arg = "shark" then .error .SharkBanner
        else Args.scan { cfg with verbs := cfg.verbs ++ [arg] } rest := by
  cases toks with
  | nil => rw [Args.scan]
  | cons arg rest =>
    rw [Args.scan]
    by_cases hd : strStartsWith arg "-" = true
    · simp only [hd, if_true]
      cases hha : Args.handle_arg cfg arg rest with
      | error ha => simp [hha]
      | ok p => cases p with | mk cfg2 rest2 => simp [hha]
    · simp only [Bool.not_eq_true] at hd
      simp [hd]

/-- `scan` on an empty stream. -/
theorem Args.scan_nil (cfg : Args) : Args.scan cfg [] = .ok (cfg, []) := by
  rw [Args.scan_eq]

/-- `scan` on a non-empty stream: one iteration of the driver loop. -/
theorem Args.scan_cons (cfg : Args) (arg : String) (rest : List String) :
    Args.scan cfg (arg :: rest) =
      if strStartsWith arg "-" then
        match Args.handle_arg cfg arg rest with
        | .error ha => .error ha
        | .ok (cfg2, rest2) => Args.scan cfg2 rest2
      else if arg = "shark" then .error .SharkBanner
      else Args.scan { cfg with verbs := cfg.verbs ++ [arg] } rest := by
  rw [Args.scan_eq]

/-- `Args::parse`: scan from the defaults, then the final drain loop appends
any tokens still in the iterator to `verbs`. -/
def Args.parse (args : List String) : Except Halt Args :=
  match Args.scan Args.default args with
  | .error h => .error h
  | .ok (out, rest) => .ok { out with verbs := out.verbs ++ rest }

/-- Modelled from the spec's words for the refinement claim about the drain
pass: `Args::parse` with the trailing drain loop removed, for comparison
with `Args.parse`. -/
def Args.parseNoDrain (args : List String) : Except Halt Args :=
  match Args.scan Args.default args with
  | .error h => .error h
  | .ok (out, _) => .ok out

/-- A successful dispatch step behaves the same on an extended stream,
leaving the extension in place. -/
theorem Args.handle_one_append {cfg : Args} {arguments : List String}
    {arg : String} {is_end : Bool} {cfg2 : Args} {rest2 : List String}
    (more : List String)
    (h : Args.handle_one cfg arguments arg is_end = .ok (cfg2, rest2)) :
    Args.handle_one cfg (arguments ++ more) arg is_end =
      .ok (cfg2, rest2 ++ more) := by
  unfold Args.handle_one Arg.try_mut at h ⊢
  repeat' split at h
  all_goals cases h
  all_goals simp_all

/-- The dispatch loop over a group behaves the same on an extended stream. -/
theorem Args.handle_list_append : ∀ (l : List String) (cfg : Args)
    (arguments more : List String) (cfg2 : Args) (rest2 : List String),
    Args.handle_list cfg arguments l = .ok (cfg2, rest2) →
    Args.handle_list cfg (arguments ++ more) l = .ok (cfg2, rest2 ++ more) := by
  intro l
  induction l with
  | nil =>
    intro cfg arguments more cfg2 rest2 h
    unfold Args.handle_list at h ⊢
    cases h
    rfl
  | cons a as ih =>
    intro cfg arguments more cfg2 rest2 h
    unfold Args.handle_list at h ⊢
    split at h
    · exact absurd h (by simp)
    · rename_i cfgm restm heq
      rw [Args.handle_one_append more heq]
      exact ih _ _ _ _ _ h

/-- `handle_arg` behaves the same on an extended stream. -/
theorem Args.handle_arg_append {cfg : Args} {argument : String}
    {arguments more : List String} {cfg2 : Args} {rest2 : List String}
    (h : Args.handle_arg cfg argument arguments = .ok (cfg2, rest2)) :
    Args.handle_arg cfg argument (arguments ++ more) =
      .ok (cfg2, rest2 ++ more) :=
  Args.handle_list_append _ _ _ _ _ _ h

theorem Args.scan_rest_nil_aux : ∀ (n : Nat) (toks : List String),
    toks.length ≤ n → ∀ (cfg c : Args) (r : List String),
    Args.scan cfg toks = .ok (c, r) → r = [] := by
  intro n
  induction n with
  | zero =>
    intro toks hlen cfg c r h
    have htoks : toks = [] := List.length_eq_zero.mp (Nat.le_zero.mp hlen)
    subst htoks
    rw [Args.scan_nil] at h
    cases h
    rfl
  | succ n ih =>
    intro toks hlen cfg c r h
    match toks with
    | [] =>
      rw [Args.scan_nil] at h
      cases h
      rfl
    | arg :: rest =>
      rw [Args.scan_cons] at h
      by_cases hd : strStartsWith arg "-" = true
      · rw [if_pos hd] at h
        cases hha : Args.handle_arg cfg arg rest with
        | error ha => rw [hha] at h; cases h
        | ok p =>
          obtain ⟨cfg2, rest2⟩ := p
          rw [hha] at h
          have hr2 : rest2.length ≤ n := by
            have h1 := Args.handle_arg_length hha
            simp only [List.length_cons] at hlen
            omega
          exact ih rest2 hr2 cfg2 c r h
      · rw [if_neg hd] at h
        by_cases hs : arg = "shark"
        · rw [if_pos hs] at h; cases h
        · rw [if_neg hs] at h
          have hr : rest.length ≤ n := by
            simp only [List.length_cons] at hlen
            omega
          exact ih rest hr _ c r h

/-- At the exit of the main scan loop the token stream is exhausted: a
successful `scan` always returns an empty remainder. -/
theorem Args.scan_rest_nil {cfg c : Args} {toks r : List String}
    (h : Args.scan cfg toks = .ok (c, r)) : r = [] :=
  Args.scan_rest_nil_aux toks.length toks (le_refl _) cfg c r h

theorem Args.scan_append_aux : ∀ (n : Nat) (toks : List String),
    toks.length ≤ n → ∀ (cfg c : Args) (more : List String),
    Args.scan cfg toks = .ok (c, []) →
    Args.scan cfg (toks ++ more) = Args.scan c more := by
  intro n
  induction n with
  | zero =>
    intro toks hlen cfg c more h
    have htoks : toks = [] := List.length_eq_zero.mp (Nat.le_zero.mp hlen)
    subst htoks
    rw [Args.scan_nil] at h
    cases h
    rfl
  | succ n ih =>
    intro toks hlen cfg c more h
    match toks with
    | [] =>
      rw [Args.scan_nil] at h
      cases h
      rfl
    | arg :: rest =>
      rw [Args.scan_cons] at h
      rw [List.cons_append, Args.scan_cons]
      by_cases hd : strStartsWith arg "-" = true
      · rw [if_pos hd] at h ⊢
        cases hha : Args.handle_arg cfg arg rest with
        | error ha => rw [hha] at h; cases h
        | ok p =>
          obtain ⟨cfg2, rest2⟩ := p
          rw [hha] at h
          rw [Args.handle_arg_append hha]
          have hr2 : rest2.length ≤ n := by
            have h1 := Args.handle_arg_length hha
            simp only [List.length_cons] at hlen
            omega
          exact ih rest2 hr2 cfg2 c more h
      · rw [if_neg hd] at h ⊢
        by_cases hs : arg = "shark"
        · rw [if_pos hs] at h; cases h
        · rw [if_neg hs] at h ⊢
          have hr : rest.length ≤ n := by
            simp only [List.length_cons] at hlen
            omega
          exact ih rest hr _ c more h

/-- Scanning is compositional: a fully consumed prefix followed by more
tokens behaves like scanning the rest from the reached configuration. -/
theorem Args.scan_append {cfg c : Args} {toks more : List String}
    (h : Args.scan cfg toks = .ok (c, [])) :
    Args.scan cfg (toks ++ more) = Args.scan c more :=
  Args.scan_append_aux toks.length toks (le_refl _) cfg c more h

/-- The synthetic token built by group expansion for the character `d`. -/
theorem synth_dash_d : "-" ++ String.singleton 'd' = "-d" := by decide

/-- The synthetic token built by group expansion for the character `h`. -/
theorem synth_dash_h : "-" ++ String.singleton 'h' = "-h" := by decide

/-- The synthetic token built by group expansion for the character `f`. -/
theorem synth_dash_f : "-" ++ String.singleton 'f' = "-f" := by decide

/-- The synthetic token built by group expansion for the character `o`. -/
theorem synth_dash_o : "-" ++ String.singleton 'o' = "-o" := by decide

/-- The synthetic token built by group expansion for the character `l`. -/
theorem synth_dash_l : "-" ++ String.singleton 'l' = "-l" := by decide

/-- From any configuration, scanning the bundled `-dh` behaves exactly like
scanning `-d` followed by `-h`. -/
theorem scan_dh_equiv : ∀ (cfg : Args) (ts : List String),
    Args.scan cfg ("-dh" :: ts) = Args.scan cfg ("-d" :: "-h" :: ts) := by
  intro cfg ts
  by_cases hset : cfg.debug.set = true
  · simp +decide [Args.scan_cons, Args.handle_arg, expand_group, Args.handle_list,
      Args.handle_one, Arg.try_mut, hset, synth_dash_d, synth_dash_h]
  · simp only [Bool.not_eq_true] at hset
    simp +decide [Args.scan_cons, Args.handle_arg, expand_group, Args.handle_list,
      Args.handle_one, Arg.try_mut, hset, synth_dash_d, synth_dash_h]

/-- A lone `-` token expands to the empty group, so the driver skips it
without touching the configuration or the rest of the stream. -/
theorem scan_lone_dash : ∀ (cfg : Args) (ts : List String),
    Args.scan cfg ("-" :: ts) = Args.scan cfg ts := by
  intro cfg ts
  rw [Args.scan_cons]
  simp +decide [Args.handle_arg, expand_group, Args.handle_list]

/-- Claim C1 (code bug): the spec says `trySet` stores the value and sets
`isSet` to true so that a second use of the same option fails with
`DuplicateFlag`.  The code never assigns `set = true`, so the guard in
`Arg::try_mut` is dead: a successful `try_mut` leaves `set = false`,
`-f a --file b` silently overwrites `a` with `b`, and `-d -d` parses
successfully instead of failing with `DuplicateFlag`. -/
theorem duplicate_flag_guard_is_dead :
    (Arg.new "main.shd").try_mut "-f" "a" = .ok ⟨"a", false⟩ ∧
    Args.parse ["-f", "a", "--file", "b"] =
      .ok { Args.default with file := ⟨"b", false⟩ } ∧
    Args.parse ["-d", "-d"] = .ok { Args.default with debug := ⟨true, false⟩ } := by
  refine ⟨by decide, ?_, ?_⟩
  · simp +decide [Args.parse, Args.scan_cons, Args.scan_nil, Args.handle_arg,
      expand_group, Args.handle_list, Args.handle_one, Args.default,
      Arg.try_mut, Arg.new, synth_dash_f]
  · simp +decide [Args.parse, Args.scan_cons, Args.scan_nil, Args.handle_arg,
      expand_group, Args.handle_list, Args.handle_one, Args.default,
      Arg.try_mut, Arg.new, synth_dash_d]

/-- Claim C2: the group expander returns a token beginning with two dashes
unchanged as one atomic unit, expands a single-dash token into one synthetic
token `-c` per character after the dash in left-to-right order, and the
token `-dh` has the same effect as the two tokens `-d` `-h` in that order
(both on the scan from any configuration and on `parse`). -/
theorem group_expansion_spec :
    (∀ t, strStartsWith t "--" = true → expand_group t = [t]) ∧
    (∀ t, strStartsWith t "--" = false →
      expand_group t = (t.toList.drop 1).map (fun c => "-" ++ String.singleton c)) ∧
    expand_group "-dh" = ["-d", "-h"] ∧
    (∀ (cfg : Args) (ts : List String),
      Args.scan cfg ("-dh" :: ts) = Args.scan cfg ("-d" :: "-h" :: ts)) ∧
    (∀ ts, Args.parse ("-dh" :: ts) = Args.parse ("-d" :: "-h" :: ts)) := by
  refine ⟨?_, ?_, by decide, scan_dh_equiv, ?_⟩
  · intro t ht
    simp [expand_group, ht]
  · intro t ht
    simp [expand_group, ht]
  · intro ts
    unfold Args.parse
    rw [scan_dh_equiv]

/-- Witness for C2 at the concrete tokens `--file` and `-dh`. -/
theorem group_expansion_spec_witness :
    strStartsWith "--file" "--" = true ∧ expand_group "--file" = ["--file"] ∧
    strStartsWith "-dh" "--" = false ∧
    expand_group "-dh" =
      ("-dh".toList.drop 1).map (fun c => "-" ++ String.singleton c) :=
  ⟨by decide, group_expansion_spec.1 "--file" (by decide), by decide,
    group_expansion_spec.2.1 "-dh" (by decide)⟩

/-- Claim C3: a value-consuming flag (`-f`, `-o`, `-l`) that is not the last
synthetic token of its expanded group fails with `GroupPositionError`
(whatever the configuration and remaining stream); `-fo x` fails that way,
while `-df x.shd` succeeds, setting debug to true and the source file to
`x.shd`. -/
theorem value_flag_group_position :
    (∀ (cfg : Args) (rest : List String) (a : String),
      a = "-f" ∨ a = "-o" ∨ a = "-l" →
      Args.handle_one cfg rest a false = .error (.Err (.GroupPositionError a))) ∧
    Args.parse ["-fo", "x"] = .error (.Err (.GroupPositionError "-f")) ∧
    Args.parse ["-df", "x.shd"] =
      .ok { Args.default with debug := ⟨true, false⟩, file := ⟨"x.shd", false⟩ } := by
  refine ⟨?_, ?_, ?_⟩
  · intro cfg rest a ha
    rcases ha with h | h | h <;> subst h <;> simp +decide [Args.handle_one]
  · simp +decide [Args.parse, Args.scan_cons, Args.scan_nil, Args.handle_arg,
      expand_group, Args.handle_list, Args.handle_one, Args.default,
      Arg.try_mut, Arg.new, synth_dash_f, synth_dash_o]
  · simp +decide [Args.parse, Args.scan_cons, Args.scan_nil, Args.handle_arg,
      expand_group, Args.handle_list, Args.handle_one, Args.default,
      Arg.try_mut, Arg.new, synth_dash_d, synth_dash_f]

/-- Witness for C3 at the non-terminal `-f`. -/
theorem value_flag_group_position_witness :
    ("-f" = "-f" ∨ "-f" = "-o" ∨ "-f" = "-l") ∧
    Args.handle_one Args.default ["x"] "-f" false =
      .error (.Err (.GroupPositionError "-f")) :=
  ⟨Or.inl rfl, value_flag_group_position.1 Args.default ["x"] "-f" (Or.inl rfl)⟩

/-- Claim C4 (amended): provided the scan of the preceding tokens completes
without terminating (no earlier token exits), an input whose last token is a
value-consuming flag with no following token fails with `MissingValue` and
exit code 1, producing no configuration. -/
theorem trailing_value_flag_missing_value :
    ∀ v, v ∈ (["-f", "--file", "-o", "--output", "-l", "--error-level"] : List String) →
    ∀ (ts : List String) (cfg : Args), Args.scan Args.default ts = .ok (cfg, []) →
    Args.parse (ts ++ [v]) = .error (.Err (.MissingValue v)) ∧
    Halt.exitCode (.Err (.MissingValue v)) = 1 := by
  intro v hv ts cfg hscan
  refine ⟨?_, rfl⟩
  unfold Args.parse
  rw [Args.scan_append hscan]
  fin_cases hv <;>
    simp +decide [Args.scan_cons, Args.handle_arg, expand_group, Args.handle_list,
      Args.handle_one, synth_dash_f, synth_dash_o, synth_dash_l]

/-- Witness for C4 at the input consisting of the lone trailing `-o`. -/
theorem trailing_value_flag_missing_value_witness :
    ("-o" ∈ (["-f", "--file", "-o", "--output", "-l", "--error-level"] : List String)) ∧
    Args.scan Args.default [] = .ok (Args.default, []) ∧
    Args.parse ["-o"] = .error (.Err (.MissingValue "-o")) :=
  ⟨by decide, Args.scan_nil _,
    (trailing_value_flag_missing_value "-o" (by decide) [] Args.default
      (Args.scan_nil _)).1⟩

/-- Counterexample to C4 as stated: the input `["-h", "-f"]` ends in the
value-consuming flag `-f` with no following token, yet parsing terminates at
`-h` with the usage action and exit code 0, not with `MissingValue`. -/
theorem missing_value_not_universal :
    Args.parse ["-h", "-f"] = .error Halt.Usage ∧
    Args.parse ["-h", "-f"] ≠ .error (.Err (.MissingValue "-f")) ∧
    Halt.exitCode Halt.Usage = 0 := by
  have h1 : Args.parse ["-h", "-f"] = .error Halt.Usage := by
    simp +decide [Args.parse, Args.scan_cons, Args.scan_nil, Args.handle_arg,
      expand_group, Args.handle_list, Args.handle_one, synth_dash_h]
  exact ⟨h1, by rw [h1]; simp, rfl⟩

/-- Claim C5: the severity argument of `-l`/`--error-level` maps exactly the
spellings f|fatal, e|error, w|warn, n|note, s|silent to the five levels;
every other string is rejected with `InvalidValue`; `--error-level bogus`
fails with `InvalidValue` while `--error-level fatal` and `-l f` both set the
diagnostic level to `Fatal`. -/
theorem severity_spellings :
    (parseLevel "f" = some .Fatal ∧ parseLevel "fatal" = some .Fatal ∧
     parseLevel "e" = some .Error ∧ parseLevel "error" = some .Error ∧
     parseLevel "w" = some .Warn ∧ parseLevel "warn" = some .Warn ∧
     parseLevel "n" = some .Note ∧ parseLevel "note" = some .Note ∧
     parseLevel "s" = some .Silent ∧ parseLevel "silent" = some .Silent) ∧
    (∀ s, s ∉ (["f", "fatal", "e", "error", "w", "warn", "n", "note", "s",
        "silent"] : List String) → parseLevel s = none) ∧
    (∀ (cfg : Args) (rest : List String) (s : String), parseLevel s = none →
      Args.handle_one cfg (s :: rest) "-l" true =
        .error (.Err (.InvalidValue s))) ∧
    Args.parse ["--error-level", "bogus"] = .error (.Err (.InvalidValue "bogus")) ∧
    Args.parse ["--error-level", "fatal"] =
      .ok { Args.default with level := ⟨.Fatal, false⟩ } ∧
    Args.parse ["-l", "f"] = .ok { Args.default with level := ⟨.Fatal, false⟩ } := by
  refine ⟨by decide, ?_, ?_, ?_, ?_, ?_⟩
  · intro s hs
    unfold parseLevel
    repeat' split
    all_goals (first | rfl | exact absurd (by decide) hs)
  · intro cfg rest s hs
    simp +decide [Args.handle_one, hs]
  · simp +decide [Args.parse, Args.scan_cons, Args.scan_nil, Args.handle_arg,
      expand_group, Args.handle_list, Args.handle_one, Args.default,
      Arg.try_mut, Arg.new, parseLevel]
  · simp +decide [Args.parse, Args.scan_cons, Args.scan_nil, Args.handle_arg,
      expand_group, Args.handle_list, Args.handle_one, Args.default,
      Arg.try_mut, Arg.new, parseLevel]
  · simp +decide [Args.parse, Args.scan_cons, Args.scan_nil, Args.handle_arg,
      expand_group, Args.handle_list, Args.handle_one, Args.default,
      Arg.try_mut, Arg.new, parseLevel, synth_dash_l]

/-- Witness for C5 at the unrecognized spelling `bogus`. -/
theorem severity_spellings_witness :
    ("bogus" ∉ (["f", "fatal", "e", "error", "w", "warn", "n", "note", "s",
        "silent"] : List String)) ∧
    parseLevel "bogus" = none ∧
    Args.handle_one Args.default ["bogus"] "-l" true =
      .error (.Err (.InvalidValue "bogus")) :=
  ⟨by decide, severity_spellings.2.1 "bogus" (by decide),
    severity_spellings.2.2.1 Args.default [] "bogus" (by decide)⟩

/-- Claim C6: parsing `["-f", "a.shd", "build", "run"]` consumes `a.shd` as
the value of `-f` before the verb scan sees it and appends the two remaining
non-dash tokens to `verbs` in encounter order, every other field staying at
its default. -/
theorem parse_value_flag_then_verbs :
    Args.parse ["-f", "a.shd", "build", "run"] =
      .ok { file := ⟨"a.shd", false⟩, output := ⟨"main.asm", false⟩,
            debug := ⟨false, false⟩, code_context := ⟨true, false⟩,
            level := ⟨Level.Warn, false⟩, verbs := ["build", "run"] } := by
  simp +decide [Args.parse, Args.scan_cons, Args.scan_nil, Args.handle_arg,
    expand_group, Args.handle_list, Args.handle_one, Args.default,
    Arg.try_mut, Arg.new, synth_dash_f]

/-- Claim C7: `-h`, `--help`, `-V` and `--version` each terminate with their
informational action and exit code 0 before any configuration is produced;
any token reaching the dispatcher that matches no recognized spelling is an
`UnrecognizedArgument` error terminating with exit code 1, as `--bogus`
shows.  -/
theorem immediate_actions_and_unrecognized :
    (Args.parse ["-h"] = .error Halt.Usage ∧ Halt.exitCode Halt.Usage = 0) ∧
    (Args.parse ["--help"] = .error Halt.HelpMsg ∧ Halt.exitCode Halt.HelpMsg = 0) ∧
    (Args.parse ["-V"] = .error Halt.Version ∧
     Args.parse ["--version"] = .error Halt.Version ∧
     Halt.exitCode Halt.Version = 0) ∧
    (∀ (a : String), a ∉ (["-h", "--help", "-V", "--version", "-d", "--debug",
        "-f", "--file", "-o", "--output", "-l", "--error-level",
        "--no-context"] : List String) →
      ∀ (cfg : Args) (arguments : List String) (is_end : Bool),
      Args.handle_one cfg arguments a is_end =
        .error (.Err (.UnrecognizedArgument a))) ∧
    Args.parse ["--bogus"] = .error (.Err (.UnrecognizedArgument "--bogus")) ∧
    Halt.exitCode (.Err (.UnrecognizedArgument "--bogus")) = 1 := by
  refine ⟨⟨?_, rfl⟩, ⟨?_, rfl⟩, ⟨?_, ?_, rfl⟩, ?_, ?_, rfl⟩
  · simp +decide [Args.parse, Args.scan_cons, Args.handle_arg, expand_group,
      Args.handle_list, Args.handle_one, synth_dash_h]
  · simp +decide [Args.parse, Args.scan_cons, Args.handle_arg, expand_group,
      Args.handle_list, Args.handle_one]
  · simp +decide [Args.parse, Args.scan_cons, Args.handle_arg, expand_group,
      Args.handle_list, Args.handle_one,
      (by decide : "-" ++ String.singleton 'V' = "-V")]
  · simp +decide [Args.parse, Args.scan_cons, Args.handle_arg, expand_group,
      Args.handle_list, Args.handle_one]
  · intro a ha cfg arguments is_end
    unfold Args.handle_one
    repeat' split
    all_goals (first | rfl | exact absurd (by decide) ha)
  · simp +decide [Args.parse, Args.scan_cons, Args.handle_arg, expand_group,
      Args.handle_list, Args.handle_one]

/-- Witness for C7 at the unrecognized spelling `--nope`. -/
theorem immediate_actions_and_unrecognized_witness :
    ("--nope" ∉ (["-h", "--help", "-V", "--version", "-d", "--debug", "-f",
        "--file", "-o", "--output", "-l", "--error-level",
        "--no-context"] : List String)) ∧
    Args.handle_one Args.default [] "--nope" true =
      .error (.Err (.UnrecognizedArgument "--nope")) :=
  ⟨by decide, immediate_actions_and_unrecognized.2.2.2.1 "--nope" (by decide)
    Args.default [] true⟩

/-- Claim C8: the final drain pass of `Args::parse` appends nothing, because
the scan loop always exhausts the shared cursor: `parse` is extensionally
equal to the same function with the drain loop removed. -/
theorem drain_pass_is_noop : ∀ ts, Args.parse ts = Args.parseNoDrain ts := by
  intro ts
  unfold Args.parse Args.parseNoDrain
  cases hs : Args.scan Args.default ts with
  | error h => rfl
  | ok p =>
    obtain ⟨out, rest⟩ := p
    have hrest : rest = [] := Args.scan_rest_nil hs
    subst hrest
    simp

/-- Claim C9: a value-consuming flag takes the immediately following raw
token verbatim, with no check on its shape: `["-f", "-d"]` stores the string
`-d` as the source file instead of treating it as a flag, and
`["-o", "shark"]` stores `shark` without triggering the reserved-literal
branch. -/
theorem value_consumed_verbatim :
    Args.parse ["-f", "-d"] = .ok { Args.default with file := ⟨"-d", false⟩ } ∧
    Args.parse ["-o", "shark"] =
      .ok { Args.default with output := ⟨"shark", false⟩ } := by
  constructor
  · simp +decide [Args.parse, Args.scan_cons, Args.scan_nil, Args.handle_arg,
      expand_group, Args.handle_list, Args.handle_one, Args.default,
      Arg.try_mut, Arg.new, synth_dash_f]
  · simp +decide [Args.parse, Args.scan_cons, Args.scan_nil, Args.handle_arg,
      expand_group, Args.handle_list, Args.handle_one, Args.default,
      Arg.try_mut, Arg.new, synth_dash_o]

/-- Counterexample to C10 as stated: inserting `-` immediately after `-f`
changes the result, because there it is consumed as the value of `-f` rather
than scanned: `["-f", "-"]` succeeds with sourceFile `-` while `["-f"]`
fails with `MissingValue`. -/
theorem dash_insertion_not_anywhere :
    Args.parse ["-f", "-"] = .ok { Args.default with file := ⟨"-", false⟩ } ∧
    Args.parse ["-f"] = .error (.Err (.MissingValue "-f")) ∧
    Args.parse ["-f", "-"] ≠ Args.parse ["-f"] := by
  have h1 : Args.parse ["-f", "-"] =
      .ok { Args.default with file := ⟨"-", false⟩ } := by
    simp +decide [Args.parse, Args.scan_cons, Args.scan_nil, Args.handle_arg,
      expand_group, Args.handle_list, Args.handle_one, Args.default,
      Arg.try_mut, Arg.new, synth_dash_f]
  have h2 : Args.parse ["-f"] = .error (.Err (.MissingValue "-f")) := by
    simp +decide [Args.parse, Args.scan_cons, Args.scan_nil, Args.handle_arg,
      expand_group, Args.handle_list, Args.handle_one, Args.default,
      Arg.try_mut, Arg.new, synth_dash_f]
  exact ⟨h1, h2, by rw [h1, h2]; simp⟩

/-- Claim C10 (amended): a lone `-` token scanned by the driver expands to
zero synthetic tokens and is silently skipped — no error, no configuration
mutation, nothing appended to verbs — and inserting `-` at a position the
driver scans (not in the value position of a preceding value-consuming
flag) leaves the result of parsing unchanged. -/
theorem lone_dash_skipped :
    expand_group "-" = [] ∧
    (∀ (cfg : Args) (ts : List String),
      Args.scan cfg ("-" :: ts) = Args.scan cfg ts) ∧
    (∀ (ts1 ts2 : List String) (cfg : Args),
      Args.scan Args.default ts1 = .ok (cfg, []) →
      Args.parse (ts1 ++ "-" :: ts2) = Args.parse (ts1 ++ ts2)) := by
  refine ⟨by decide, scan_lone_dash, ?_⟩
  intro ts1 ts2 cfg h
  unfold Args.parse
  rw [Args.scan_append h, Args.scan_append h, scan_lone_dash]

/-- Witness for C10 at the insertion of `-` at the front of `["x"]`. -/
theorem lone_dash_skipped_witness :
    Args.scan Args.default [] = .ok (Args.default, []) ∧
    Args.parse ["-", "x"] = Args.parse ["x"] :=
  ⟨Args.scan_nil _, lone_dash_skipped.2.2 [] ["x"] Args.default (Args.scan_nil _)⟩

end Shard
